import Mathlib

/-!
# Verification of the GDTools level codec and pixel compiler

Shallow embedding of the core of the GDTools repository:

* `src/utils/gmd_parser.py` — the payload-field (`k4`) codec
  (`decode_k4`/`encode_k4`), the `.gmd` tag-shorthand reader with its
  transcode-then-raw fallback (`_read_gmd`), and the `.lvl` compressed
  reader/writer (`_read_lvl`/`_save_lvl`).
* `src/utils/color_extractor.py` — palette extraction
  (`extract_colors_from_image`), color-ID allocation
  (`generate_color_id_mapping`, guards of `process_image`), and the block
  record compiler (`generate_block_data`).
* `src/editor.py` — path-addressed mutation (`DataTreeModel.set_value_by_path`).

Python byte strings are modelled as `List Nat` with every element `< 256`;
Python `str` values are modelled as `List Char` (Lean characters are exactly
the Unicode scalar values that Python can encode to UTF-8).  External library
functions with nontrivial algorithms (`gzip.compress`/`gzip.decompress`,
`zlib`, `plistlib`) are modelled as explicit function parameters; the moduleʼs
own logic (base64, padding fix, UTF-8 with `errors='ignore'`, fallback
control flow, palette / ID / record computations) is embedded concretely.
-/

namespace GDTools

/-! ## URL-safe base64 (models Python `base64.urlsafe_b64encode/b64decode`,
the external encoding used by `decode_k4`/`encode_k4` in
`src/utils/gmd_parser.py`).  The URL-safe alphabet replaces `+`/`/` by
`-`/`_`; padding uses `=`. -/

/-- Character of the URL-safe base64 alphabet at index `n < 64`. -/
def b64Char (n : Nat) : Char :=
  if n < 26 then Char.ofNat (65 + n)
  else if n < 52 then Char.ofNat (97 + (n - 26))
  else if n < 62 then Char.ofNat (48 + (n - 52))
  else if n = 62 then '-'
  else '_'

/-- Index of a character in the URL-safe base64 alphabet, `none` if the
character is not in the alphabet. -/
def b64Index (c : Char) : Option Nat :=
  if 'A' ≤ c ∧ c ≤ 'Z' then some (c.toNat - 65)
  else if 'a' ≤ c ∧ c ≤ 'z' then some (c.toNat - 97 + 26)
  else if '0' ≤ c ∧ c ≤ '9' then some (c.toNat - 48 + 52)
  else if c = '-' then some 62
  else if c = '_' then some 63
  else none

/-- URL-safe base64 encoding keeping `=` padding
(Python `base64.urlsafe_b64encode`). -/
def b64UrlEncode : List Nat → List Char
  | [] => []
  | [b1] => [b64Char (b1 / 4), b64Char (b1 % 4 * 16), '=', '=']
  | [b1, b2] =>
      [b64Char (b1 / 4), b64Char (b1 % 4 * 16 + b2 / 16), b64Char (b2 % 16 * 4), '=']
  | b1 :: b2 :: b3 :: rest =>
      b64Char (b1 / 4) :: b64Char (b1 % 4 * 16 + b2 / 16) ::
      b64Char (b2 % 16 * 4 + b3 / 64) :: b64Char (b3 % 64) :: b64UrlEncode rest

/-- URL-safe base64 decoding of a properly padded string
(Python `base64.urlsafe_b64decode`); fails (`none`) on malformed input,
modelling the `binascii.Error` that `decode_k4` catches. -/
def b64UrlDecode : List Char → Option (List Nat)
  | [] => some []
  | c1 :: c2 :: c3 :: c4 :: rest =>
      match b64Index c1, b64Index c2 with
      | some n1, some n2 =>
        if c3 = '=' then
          if c4 = '=' ∧ rest = [] then some [n1 * 4 + n2 / 16] else none
        else
          match b64Index c3 with
          | some n3 =>
            if c4 = '=' then
              if rest = [] then some [n1 * 4 + n2 / 16, n2 % 16 * 16 + n3 / 4] else none
            else
              match b64Index c4 with
              | some n4 =>
                  (b64UrlDecode rest).map
                    (fun bs => (n1 * 4 + n2 / 16) :: (n2 % 16 * 16 + n3 / 4) ::
                               (n3 % 4 * 64 + n4) :: bs)
              | none => none
          | none => none
      | _, _ => none
  | _ => none

/-! ## UTF-8 (models Python `str.encode('utf-8')` and
`bytes.decode('utf-8', errors='ignore')`, the external codec used by
`decode_k4`/`encode_k4`). -/

/-- UTF-8 encoding of a single Unicode scalar value. -/
def utf8EncodeChar (c : Char) : List Nat :=
  let n := c.toNat
  if n < 128 then [n]
  else if n < 2048 then [192 + n / 64, 128 + n % 64]
  else if n < 65536 then [224 + n / 4096, 128 + n / 64 % 64, 128 + n % 64]
  else [240 + n / 262144, 128 + n / 4096 % 64, 128 + n / 64 % 64, 128 + n % 64]

/-- UTF-8 encoding of a string (Python `str.encode('utf-8')`). -/
def utf8Encode (s : List Char) : List Nat :=
  s.flatMap utf8EncodeChar

/-- Is `b` a UTF-8 continuation byte? -/
def contOK (b : Nat) : Bool := 128 ≤ b && b ≤ 191

/-- Admissible second byte after a three-byte leader (excludes overlong
forms after `0xE0` and surrogates after `0xED`). -/
def cont2OK (b b2 : Nat) : Bool :=
  if b = 224 then 160 ≤ b2 && b2 ≤ 191
  else if b = 237 then 128 ≤ b2 && b2 ≤ 159
  else contOK b2

/-- Admissible second byte after a four-byte leader (excludes overlong forms
after `0xF0` and values beyond `U+10FFFF` after `0xF4`). -/
def cont3OK (b b2 : Nat) : Bool :=
  if b = 240 then 144 ≤ b2 && b2 ≤ 191
  else if b = 244 then 128 ≤ b2 && b2 ≤ 143
  else contOK b2

/-- UTF-8 decoding with Pythonʼs `errors='ignore'` handler: every maximal
invalid subpart is skipped and produces nothing (Python drops the offending
bytes entirely — it does not substitute a replacement character). -/
def utf8DecodeIgnore : List Nat → List Char
  | [] => []
  | b :: rest =>
    if b < 128 then Char.ofNat b :: utf8DecodeIgnore rest
    else if 194 ≤ b ∧ b ≤ 223 then
      match rest with
      | [] => []
      | b2 :: rest2 =>
        if contOK b2 then
          Char.ofNat ((b - 192) * 64 + (b2 - 128)) :: utf8DecodeIgnore rest2
        else utf8DecodeIgnore (b2 :: rest2)
    else if 224 ≤ b ∧ b ≤ 239 then
      match rest with
      | [] => []
      | b2 :: rest2 =>
        if cont2OK b b2 then
          match rest2 with
          | [] => []
          | b3 :: rest3 =>
            if contOK b3 then
              Char.ofNat ((b - 224) * 4096 + (b2 - 128) * 64 + (b3 - 128)) ::
                utf8DecodeIgnore rest3
            else utf8DecodeIgnore (b3 :: rest3)
        else utf8DecodeIgnore (b2 :: rest2)
    else if 240 ≤ b ∧ b ≤ 244 then
      match rest with
      | [] => []
      | b2 :: rest2 =>
        if cont3OK b b2 then
          match rest2 with
          | [] => []
          | b3 :: rest3 =>
            if contOK b3 then
              match rest3 with
              | [] => []
              | b4 :: rest4 =>
                if contOK b4 then
                  Char.ofNat ((b - 240) * 262144 + (b2 - 128) * 4096 +
                              (b3 - 128) * 64 + (b4 - 128)) :: utf8DecodeIgnore rest4
                else utf8DecodeIgnore (b4 :: rest4)
            else utf8DecodeIgnore (b3 :: rest3)
        else utf8DecodeIgnore (b2 :: rest2)
    else utf8DecodeIgnore rest

/-! ## The payload-field (`k4`) codec — `GMDParser.decode_k4` / `encode_k4`
(`src/utils/gmd_parser.py`, lines 19–72).  `gzip.compress(·, mtime=0,
compresslevel=6)` and `gzip.decompress` are external library functions,
passed in as parameters; decompression is fallible. -/

/-- Padding fix from `decode_k4`: pad with `'='` to a multiple of 4. -/
def fixPadding (s : List Char) : List Char :=
  let missing := s.length % 4
  if missing ≠ 0 then s ++ List.replicate (4 - missing) '=' else s

/-- `GMDParser.decode_k4`: fix base64 padding, URL-safe base64 decode, gzip
decompress, UTF-8 decode with `errors='ignore'`.  A failure in any step
(`none`) models the `ValueError` the Python function raises. -/
def decode_k4 (gunzip : List Nat → Option (List Nat)) (k4 : List Char) :
    Option (List Char) :=
  match b64UrlDecode (fixPadding k4) with
  | none => none
  | some compressed =>
    match gunzip compressed with
    | none => none
    | some bytes => some (utf8DecodeIgnore bytes)

/-- `GMDParser.encode_k4`: UTF-8 encode, gzip compress (abstract parameter,
`mtime=0`, `compresslevel=6` in the source), URL-safe base64 encode keeping
padding. -/
def encode_k4 (gzipC : List Nat → List Nat) (s : List Char) : List Char :=
  b64UrlEncode (gzipC (utf8Encode s))

/-! ## Tag transcoder — `GMDParser._convert_gd_plist_to_standard`
(`src/utils/gmd_parser.py`, lines 172–206): sequential literal substitution
over the fixed table, plus a `\s*`-tolerant rule for the two self-closing
boolean tags. -/

/-- Replace every occurrence of the nonempty pattern `p :: ps` by `repl`,
scanning left to right (Python `re.sub` with a literal pattern). -/
def replaceSub (p : Char) (ps repl : List Char) : List Char → List Char
  | [] => []
  | c :: rest =>
    if c = p ∧ ps.isPrefixOf rest then repl ++ replaceSub p ps repl (rest.drop ps.length)
    else c :: replaceSub p ps repl rest
termination_by l => l.length
decreasing_by
  · simp only [List.length_cons, List.length_drop]; omega
  · simp only [List.length_cons]; omega

/-- Literal substitution wrapper taking the pattern as a string. -/
def rsub (pat repl : String) (s : List Char) : List Char :=
  match pat.data with
  | [] => s
  | p :: ps => replaceSub p ps repl.data s

/-- Whitespace characters matched by the regex class `\s` (ASCII). -/
def isPySpace (c : Char) : Bool :=
  c = ' ' || c = '\t' || c = '\n' || c = '\x0d' || c = '\x0b' || c = '\x0c'

/-- Replace every occurrence of `<` `tag` `\s*` `/>` by `repl`
(the `re.sub(r'<t\s*/>', ...)` rules). -/
def replaceSelfClose (tag : Char) (repl : List Char) : List Char → List Char
  | [] => []
  | [c] => [c]
  | c :: c2 :: rest2 =>
    if c = '<' ∧ c2 = tag then
      let after := rest2.dropWhile isPySpace
      if ['/', '>'].isPrefixOf after then
        repl ++ replaceSelfClose tag repl (after.drop 2)
      else c :: replaceSelfClose tag repl (c2 :: rest2)
    else c :: replaceSelfClose tag repl (c2 :: rest2)
termination_by l => l.length
decreasing_by
  all_goals simp only [List.length_cons, List.length_drop]
  all_goals
    first
    | omega
    | (have h := (List.dropWhile_sublist (l := rest2) (p := isPySpace)).length_le
       omega)

/-- `GMDParser._convert_gd_plist_to_standard`: the 14 substitutions applied in
the source order (open tags, close tags, then the two self-closing boolean
tags). -/
def convertGdToStandard (s : List Char) : List Char :=
  let s := rsub "<k>" "<key>" s
  let s := rsub "<i>" "<integer>" s
  let s := rsub "<s>" "<string>" s
  let s := rsub "<r>" "<real>" s
  let s := rsub "<d>" "<dict>" s
  let s := rsub "<a>" "<array>" s
  let s := rsub "</k>" "</key>" s
  let s := rsub "</i>" "</integer>" s
  let s := rsub "</s>" "</string>" s
  let s := rsub "</r>" "</real>" s
  let s := rsub "</d>" "</dict>" s
  let s := rsub "</a>" "</array>" s
  let s := replaceSelfClose 't' "<true/>".data s
  let s := replaceSelfClose 'f' "<false/>".data s
  s

/-! ## Container readers — `GMDParser._read_gmd` (lines 97–116) and
`GMDParser._read_lvl` / `GMDParser._save_lvl` (lines 118–133, 325–332).
`plistlib.loads/dumps`, strict UTF-8 decoding, `zlib` and `gzip` are external
library functions, passed as parameters; errors are modelled as `Except`
values carrying the Python exception text. -/

abbrev Bytes := List Nat

/-- The `ValueError(f"无法解析GMD文件: {e}")` constructor of `_read_gmd`. -/
def wrapGmdError (e : String) : String := "无法解析GMD文件: " ++ e

/-- `GMDParser._read_gmd`: attempt strict-UTF-8 decode, shorthand→standard
transcode and plist parse; on any failure `e` in that attempt, attempt
parsing the raw bytes; if that also fails, raise a wrapped error — the source
interpolates `e`, the FIRST attemptʼs exception, into the message. -/
def readGmd {α : Type} (decodeUtf8Strict : Bytes → Except String (List Char))
    (plistLoads : Bytes → Except String α) (data : Bytes) : Except String α :=
  match decodeUtf8Strict data with
  | .ok text =>
      match plistLoads (utf8Encode (convertGdToStandard text)) with
      | .ok v => .ok v
      | .error e =>
          match plistLoads data with
          | .ok v => .ok v
          | .error _ => .error (wrapGmdError e)
  | .error e =>
      match plistLoads data with
      | .ok v => .ok v
      | .error _ => .error (wrapGmdError e)

/-- `GMDParser._read_lvl`: try `zlib.decompress`, fall back to
`gzip.decompress` on any failure (a failure of the fallback propagates),
then parse the decompressed bytes as a plist (a parse failure propagates). -/
def readLvl {α : Type} (zlibDecompress gzipDecompress : Bytes → Except String Bytes)
    (plistLoads : Bytes → Except String α) (data : Bytes) : Except String α :=
  match zlibDecompress data with
  | .ok d => plistLoads d
  | .error _ =>
      match gzipDecompress data with
      | .ok d => plistLoads d
      | .error e => .error e

/-- `GMDParser._save_lvl`: dump the document as an XML plist and compress it
with `zlib.compress` (the zlib/deflate scheme) — gzip is never used on the
write path. -/
def saveLvl {α : Type} (zlibCompress : Bytes → Bytes) (plistDumps : α → Bytes)
    (doc : α) : Bytes :=
  zlibCompress (plistDumps doc)

/-! ## Palette extraction — `ColorExtractor.extract_colors_from_image`
(`src/utils/color_extractor.py`, lines 28–92).  The image is modelled by its
`img.getdata()` pixel sequence (row-major RGBA tuples); the file-open failure
path and the `width`/`height`/`image` fields of the success dictionary are
outside the claims and omitted. -/

abbrev RGBA := Nat × Nat × Nat × Nat
abbrev RGB := Nat × Nat × Nat

/-- Lexicographic comparison of `(r,g,b)` triples — Python tuple order used
by `sorted`. -/
def rgbLe (a b : RGB) : Bool :=
  decide (a.1 < b.1 ∨ (a.1 = b.1 ∧ (a.2.1 < b.2.1 ∨ (a.2.1 = b.2.1 ∧ a.2.2 ≤ b.2.2))))

/-- Strict lexicographic order on `(r,g,b)` triples. -/
def rgbLt (a b : RGB) : Prop :=
  a.1 < b.1 ∨ (a.1 = b.1 ∧ (a.2.1 < b.2.1 ∨ (a.2.1 = b.2.1 ∧ a.2.2 < b.2.2)))

instance (a b : RGB) : Decidable (rgbLt a b) := by
  unfold rgbLt; infer_instance

/-- `unique_colors.add(...)`: a Python `set` modelled as a duplicate-free
list in insertion order (the set is only ever measured with `len` and
`sorted`, both insensitive to this choice of order). -/
def pySetAdd (s : List RGB) (c : RGB) : List RGB :=
  if c ∈ s then s else s ++ [c]

/-- The pixel scan of `extract_colors_from_image`: collect the `(r,g,b)` of
every fully opaque pixel into the working set, count the rest as
transparent. -/
def collectColors (pixels : List RGBA) : List RGB × Nat :=
  pixels.foldl
    (fun acc p =>
      if p.2.2.2 = 255 then (pySetAdd acc.1 (p.1, p.2.1, p.2.2.1), acc.2)
      else (acc.1, acc.2 + 1))
    ([], 0)

/-- Result dictionary of `extract_colors_from_image`: `failure count` is the
`{'success': False, 'error': …, 'color_count': count}` dictionary, `success`
the `{'success': True, 'colors': …, 'color_count': …, 'transparent_count': …}`
dictionary. -/
inductive ExtractResult where
  | failure (color_count : Nat)
  | success (colors : List RGB) (color_count : Nat) (transparent_count : Nat)
  deriving DecidableEq, Repr

/-- `ColorExtractor.extract_colors_from_image` on the pixel sequence:
scan, overflow check against 512, then `sorted(list(unique_colors))`
(Python `sorted` and `List.mergeSort` with the total transitive order
`rgbLe` both produce the unique sorted arrangement of the duplicate-free
working set). -/
def extract_colors_from_image (pixels : List RGBA) : ExtractResult :=
  let scan := collectColors pixels
  let color_count := scan.1.length
  if 512 < color_count then .failure color_count
  else .success (scan.1.mergeSort rgbLe) color_count scan.2

/-! ## ID allocation — `ColorExtractor.generate_color_id_mapping`
(lines 94–123) and the `start_id` guards of `ColorExtractor.process_image`
(lines 273–285). -/

/-- Python dictionary assignment `d[k] = v` on an insertion-ordered
association list: replace in place if the key is present, else append. -/
def pyDictInsert (m : List (RGB × Int)) (k : RGB) (v : Int) : List (RGB × Int) :=
  match m with
  | [] => [(k, v)]
  | (k', v') :: rest => if k' = k then (k, v) :: rest else (k', v') :: pyDictInsert rest k v

/-- `list(range(start, stop, -1))`: `start, start-1, …, stop+1`
(empty when `start ≤ stop`). -/
def rangeDown (start stop : Int) : List Int :=
  (List.range (start - stop).toNat).map (fun i : Nat => start - (i : Int))

/-- `ColorExtractor.generate_color_id_mapping`: build the descending ID list
`start_id … end_id`, reverse it, then assign positionally to the colors,
building the color→ID dictionary. -/
def generate_color_id_mapping (colors : List RGB) (start_id : Int) : List (RGB × Int) :=
  let color_count := colors.length
  let end_id := start_id - color_count + 1
  let ids_descending := rangeDown start_id (end_id - 1)
  let ids_final := ids_descending.reverse
  (colors.zip ids_final).foldl (fun m ci => pyDictInsert m ci.1 ci.2) []

/-- Modelled from the spec (§9, §4.5): the simpler equivalent allocator that
directly assigns ascending IDs starting at `end_id` to the colors in order. -/
def directAscendingMapping (colors : List RGB) (start_id : Int) : List (RGB × Int) :=
  let n := colors.length
  let end_id := start_id - n + 1
  (colors.zip ((List.range n).map (fun i : Nat => end_id + (i : Int)))).foldl
    (fun m ci => pyDictInsert m ci.1 ci.2) []

/-- Outcome of the `start_id` validation in `ColorExtractor.process_image`:
`tooLarge` is the `{'success': False, 'error': f'起始ID … 超过最大值999'}`
dictionary (which carries NO `color_count` entry), `notGreaterThanCount` the
`{'success': False, 'error': …, 'color_count': count}` dictionary. -/
inductive ProcessCheck where
  | tooLarge (start_id : Int)
  | notGreaterThanCount (start_id : Int) (color_count : Nat)
  | ok
  deriving DecidableEq, Repr

/-- The two `start_id` guards of `process_image`, in source order. -/
def process_image_validate (color_count : Nat) (start_id : Int) : ProcessCheck :=
  if 999 < start_id then .tooLarge start_id
  else if start_id ≤ color_count then .notGreaterThanCount start_id color_count
  else .ok

/-- Which failure dictionary carries a `'color_count'` entry (the palette
size) — mirrors the dictionary literals at lines 274–285 of
`src/utils/color_extractor.py`. -/
def checkCarriesColorCount : ProcessCheck → Option Nat
  | .tooLarge _ => none
  | .notGreaterThanCount _ c => some c
  | .ok => none

/-! ## Record compiler — `ColorExtractor.generate_block_data`
(lines 161–225).  The image is a pixel function `getpix col row` with
bounds `width`/`height`.  World positions are exact multiples of `7.5`;
every such value (`col * 7.5` for `col` far below `2^49`) is represented
exactly by a Python float, so `ℚ` models the float arithmetic and
comparisons of the source without loss. -/

/-- The Python tuple `(row, col, x_pos, y_pos, color_rgb)` collected per
opaque pixel. -/
structure BlockTuple where
  row : Nat
  col : Nat
  xPos : ℚ
  yPos : ℚ
  color : RGB
  deriving DecidableEq, Repr

/-- The pixel scan of `generate_block_data`: rows top to bottom, columns left
to right, one tuple per fully opaque pixel, with
`x_pos = col * 7.5`, `y_pos = (height - 1 - row) * 7.5`. -/
def blockTuples (getpix : Nat → Nat → RGBA) (width height : Nat) : List BlockTuple :=
  (List.range height).flatMap (fun row =>
    (List.range width).filterMap (fun col =>
      let p := getpix col row
      if p.2.2.2 = 255 then
        some ⟨row, col, col * (15 / 2 : ℚ), (height - 1 - row : Nat) * (15 / 2 : ℚ),
              (p.1, p.2.1, p.2.2.1)⟩
      else none))

/-- The sort key `(-y_pos, x_pos)` of `blocks.sort`, as a total preorder:
descending `y_pos`, ties by ascending `x_pos`. -/
def blockLE (b1 b2 : BlockTuple) : Bool :=
  decide (b2.yPos < b1.yPos ∨ (b1.yPos = b2.yPos ∧ b1.xPos ≤ b2.xPos))

/-- `blocks.sort(key=lambda b: (-b[3], b[2]))`: Pythonʼs sort is stable, as
is `List.mergeSort`, and a stable sort by a total preorder is unique, so the
two produce the same list. -/
def sortedBlocks (getpix : Nat → Nat → RGBA) (width height : Nat) : List BlockTuple :=
  (blockTuples getpix width height).mergeSort blockLE

/-- The `color_to_sequence` loop: walk the sorted blocks; the first time a
color appears, give it `next_sequence` (starting at 1) and increment. -/
def assignSequences (blocks : List BlockTuple) : List (RGB × Nat) :=
  (blocks.foldl
    (fun st bt =>
      if (List.lookup bt.color st.1).isSome then st
      else (st.1 ++ [(bt.color, st.2)], st.2 + 1))
    (([], 1) : List (RGB × Nat) × Nat)).1

/-- `ColorExtractor.generate_block_data`, yielding each sorted block tuple
paired with its color sequence number.  (The source additionally renders each
record into its output line `1,917,2,{x},3,{y},155,{seq},21,{color_id};`
using `color_to_id` and `format_number`; the formatting and the ID lookup are
not touched by the claims and are kept out of the record model.) -/
def generate_block_data (getpix : Nat → Nat → RGBA) (width height : Nat) :
    List (BlockTuple × Nat) :=
  let blocks := sortedBlocks getpix width height
  let seqs := assignSequences blocks
  blocks.map (fun bt => (bt, (List.lookup bt.color seqs).getD 0))

/-! ## Path-addressed mutation — `DataTreeModel.set_value_by_path`
(`src/editor.py`, lines 122–164), over the plist value tree. -/

/-- The Python value tree handled by the editor (`plistlib` output). -/
inductive PValue where
  | bool (b : Bool)
  | int (n : Int)
  | real (q : ℚ)
  | str (s : String)
  | dict (entries : List (String × PValue))
  | list (xs : List PValue)
  deriving Repr

/-- Python dictionary assignment `d[k] = v` over the editorʼs string-keyed
dictionaries. -/
def pvDictSet (es : List (String × PValue)) (k : String) (v : PValue) :
    List (String × PValue) :=
  match es with
  | [] => [(k, v)]
  | (k', v') :: rest => if k' = k then (k, v) :: rest else (k', v') :: pvDictSet rest k v

/-- `int(s)` on a path segmentʼs bracket content: optional surrounding
whitespace, optional sign, at least one digit (`ValueError` = `none`). -/
def pyParseInt (cs : List Char) : Option Int :=
  let cs := (cs.dropWhile isPySpace).reverse.dropWhile isPySpace |>.reverse
  let digitsVal : List Char → Option Nat := fun ds =>
    if ds ≠ [] ∧ ds.all (·.isDigit) then
      some (ds.foldl (fun acc d => acc * 10 + (d.toNat - 48)) 0)
    else none
  match cs with
  | '-' :: ds => (digitsVal ds).map (fun n => -(n : Int))
  | '+' :: ds => (digitsVal ds).map (fun n => (n : Int))
  | ds => (digitsVal ds).map (fun n => (n : Int))

/-- Does the segment have the `[…]` shape
(`part.startswith('[') and part.endswith(']')`)? -/
def isBracketed (s : String) : Bool :=
  match s.data with
  | '[' :: rest => decide (rest ≠ []) && decide (rest.getLast? = some ']')
  | _ => false

/-- The bracket content `part[1:-1]`. -/
def bracketInner (s : String) : List Char :=
  (s.data.drop 1).dropLast

/-- Python list read `xs[i]` with negative-index wrapping
(`IndexError` = `none`). -/
def pyListGet (xs : List PValue) (i : Int) : Option PValue :=
  let j := if i < 0 then i + xs.length else i
  if h : 0 ≤ j ∧ j < xs.length then some (xs.get ⟨j.toNat, by omega⟩) else none

/-- Python list write `xs[i] = v` with negative-index wrapping
(`IndexError` = `none`). -/
def pyListSet (xs : List PValue) (i : Int) (v : PValue) : Option (List PValue) :=
  let j := if i < 0 then i + xs.length else i
  if 0 ≤ j ∧ j < xs.length then some (xs.set j.toNat v) else none

/-- The assignment after the loop of `set_value_by_path` (lines 151–164):
set `path[-1]` inside the node the loop stopped at; `none` models
`return False`. -/
def svpFinalSet (cur : PValue) (lastKey : String) (v : PValue) : Option PValue :=
  match cur with
  | .dict es =>
      if (List.lookup lastKey es).isSome then some (.dict (pvDictSet es lastKey v))
      else
        none
  | .list xs =>
      if isBracketed lastKey then
        match pyParseInt (bracketInner lastKey) with
        | some idx => (pyListSet xs idx v).map PValue.list
        | none => none
      else none
  | _ => none

/-- The loop over `path[:-1]` of `set_value_by_path` (lines 128–149),
rebuilding the tree along the descents.  `parts` is the remaining suffix of
`path[:-1]`, `i` its starting index, `lastIdx = len(path) - 2`: the loop
`break`s — skipping the descent — when `i == lastIdx` in the `dict`/`list`
branches, and silently skips segments whose current node is a scalar. -/
def svpLoop (lastIdx : Nat) (lastKey : String) (v : PValue) :
    List String → Nat → PValue → Option PValue
  | [], _, cur => svpFinalSet cur lastKey v
  | part :: rest, i, cur =>
    if part = "root" then svpLoop lastIdx lastKey v rest (i + 1) cur
    else
      match cur with
      | .dict es =>
          if (List.lookup part es).isNone then none
          else if i = lastIdx then svpFinalSet cur lastKey v
          else
            match List.lookup part es with
            | some child =>
                (svpLoop lastIdx lastKey v rest (i + 1) child).map
                  (fun nc => .dict (pvDictSet es part nc))
            | none => none
      | .list xs =>
          if isBracketed part then
            match pyParseInt (bracketInner part) with
            | some idx =>
                if i = lastIdx then svpFinalSet cur lastKey v
                else
                  match pyListGet xs idx with
                  | some child =>
                      (svpLoop lastIdx lastKey v rest (i + 1) child).map
                        (fun nc =>
                          .list ((pyListSet xs idx nc).getD xs))
                  | none => none
            | none => none
          else none
      | other => svpLoop lastIdx lastKey v rest (i + 1) other

/-- `DataTreeModel.set_value_by_path`: returns the Python `bool` result and
the (possibly mutated) document.  `data = none` models `self.data_dict is
None`; an empty top dictionary is falsy (`not self.data_dict`), also
rejected.  On `False` the document is untouched (every mutation happens only
in the single successful assignment). -/
def set_value_by_path (data : Option (List (String × PValue))) (path : List String)
    (v : PValue) : Bool × Option (List (String × PValue)) :=
  match data with
  | none => (false, none)
  | some entries =>
    if entries.isEmpty ∨ path.length < 2 then (false, some entries)
    else
      match svpLoop (path.length - 2) (path.getLastD "") v path.dropLast 0 (.dict entries) with
      | some (.dict newEntries) => (true, some newEntries)
      | some _ => (true, some entries)
      | none => (false, some entries)

/-! ## Specification-side functions, written from the claim texts, used to
state the theorems (independent of the source translations above). -/

/-- The `(r,g,b)` projection of an RGBA pixel. -/
def rgbOf (p : RGBA) : RGB := (p.1, p.2.1, p.2.2.1)

/-- The colors of the fully opaque pixels, in scan order, duplicates kept. -/
def opaqueColorsOf (pixels : List RGBA) : List RGB :=
  (pixels.filter (fun p => p.2.2.2 = 255)).map rgbOf

/-- How many pixels are not fully opaque. -/
def transparentCountOf (pixels : List RGBA) : Nat :=
  (pixels.filter (fun p => p.2.2.2 ≠ 255)).length

/-- The distinct colors of a color list, in first-encounter order. -/
def firstSeen (cs : List RGB) : List RGB :=
  cs.foldl (fun acc c => if c ∈ acc then acc else acc ++ [c]) []

/-- Enumerate a color list with positions `1, 2, 3, …`. -/
def numberedFrom1 (seen : List RGB) : List (RGB × Nat) :=
  seen.zip (List.range' 1 seen.length)

/-! ## Helper lemmas -/

theorem rangeDown_reverse (start : Int) (n : Nat) :
    (rangeDown start (start - n)).reverse =
      (List.range n).map (fun i : Nat => start - n + 1 + (i : Int)) := by
  induction n generalizing start with
  | zero => simp [rangeDown]
  | succ m ih =>
    have e1 : (start - (start - ((m + 1 : Nat) : Int))).toNat = m + 1 := by omega
    have e2 : (start - (start - ((m : Nat) : Int))).toNat = m := by omega
    have ihs := ih start
    unfold rangeDown at ihs ⊢
    rw [e2] at ihs
    rw [e1]
    conv_lhs => rw [List.range_succ]
    conv_rhs => rw [List.range_succ_eq_map]
    rw [List.map_append, List.reverse_append, ihs]
    simp only [List.map_cons, List.map_map, List.map_nil, List.reverse_cons,
      List.reverse_nil, List.nil_append, List.singleton_append]
    congr 1
    · push_cast; ring
    · apply List.map_congr_left
      intro i _
      simp only [Function.comp_apply]
      push_cast; ring

theorem pyDictInsert_of_lookup_none (m : List (RGB × Int)) (k : RGB) (v : Int)
    (h : List.lookup k m = none) : pyDictInsert m k v = m ++ [(k, v)] := by
  induction m with
  | nil => rfl
  | cons p rest ih =>
    obtain ⟨k', v'⟩ := p
    rw [List.lookup_cons] at h
    cases hbeq : k == k' with
    | true => simp [hbeq] at h
    | false =>
      simp only [hbeq] at h
      have hk : ¬ (k' = k) := by
        intro he
        subst he
        simp at hbeq
      simp only [pyDictInsert, if_neg hk, List.cons_append, List.cons.injEq, true_and]
      exact ih h

theorem foldl_pyDictInsert_eq (ps : List (RGB × Int)) : ∀ (acc : List (RGB × Int)),
    (∀ k ∈ ps.map Prod.fst, List.lookup k acc = none) → (ps.map Prod.fst).Nodup →
    ps.foldl (fun m ci => pyDictInsert m ci.1 ci.2) acc = acc ++ ps := by
  induction ps with
  | nil => simp
  | cons p rest ih =>
    intro acc hdisj hnd
    simp only [List.foldl_cons]
    rw [pyDictInsert_of_lookup_none _ _ _
      (hdisj p.1 (by simp))]
    simp only [List.map_cons, List.nodup_cons] at hnd
    rw [ih (acc ++ [(p.1, p.2)]) ?hfresh hnd.2]
    · simp
    case hfresh =>
      intro k hk
      rw [List.lookup_append]
      have h1 : List.lookup k acc = none :=
        hdisj k (by simp only [List.map_cons, List.mem_cons]; exact Or.inr hk)
      have h2 : (k == p.1) = false := by
        apply beq_eq_false_iff_ne.mpr
        intro hkp
        exact hnd.1 (hkp ▸ hk)
      rw [h1]
      simp only [Option.none_or, List.lookup_cons, h2, List.lookup_nil]

theorem lookup_zip_nodup (colors : List RGB) :
    ∀ (ids : List Int), colors.Nodup → ids.length = colors.length →
    ∀ i (hi : i < colors.length) (hi2 : i < ids.length),
      List.lookup (colors.get ⟨i, hi⟩) (colors.zip ids) = some (ids.get ⟨i, hi2⟩) := by
  induction colors with
  | nil =>
    intro ids _ _ i hi
    simp at hi
  | cons c rest ih =>
    intro ids hnd hlen i hi hi2
    match ids with
    | [] => simp at hlen
    | id0 :: idrest =>
      match i with
      | 0 => simp
      | Nat.succ j =>
        have hj : j < rest.length := by simpa using hi
        have hget : (c :: rest).get ⟨j + 1, hi⟩ = rest.get ⟨j, hj⟩ := rfl
        rw [hget, List.zip_cons_cons, List.lookup_cons]
        have hne : (rest.get ⟨j, hj⟩ == c) = false := by
          apply beq_eq_false_iff_ne.mpr
          intro heq
          simp only [List.nodup_cons] at hnd
          exact hnd.1 (heq ▸ rest.get_mem j hj)
        simp only [hne]
        exact ih idrest (by simp only [List.nodup_cons] at hnd; exact hnd.2)
          (by simpa using hlen) j hj (by simpa using hi2)

theorem generate_color_id_mapping_eq_zip (colors : List RGB) (start_id : Int)
    (hnd : colors.Nodup) :
    generate_color_id_mapping colors start_id =
      colors.zip ((List.range colors.length).map
        (fun i : Nat => start_id - colors.length + 1 + (i : Int))) := by
  simp only [generate_color_id_mapping]
  have harg : start_id - (colors.length : Int) + 1 - 1 = start_id - colors.length := by ring
  rw [harg, rangeDown_reverse]
  set ids := (List.range colors.length).map
    (fun i : Nat => start_id - colors.length + 1 + (i : Int)) with hids
  have hlen : ids.length = colors.length := by simp [hids]
  have hfst : (colors.zip ids).map Prod.fst = colors :=
    List.map_fst_zip _ _ (le_of_eq hlen.symm)
  have := foldl_pyDictInsert_eq (colors.zip ids) [] (by simp)
    (by rw [hfst]; exact hnd)
  simpa using this

theorem rgbLt_irrefl (a : RGB) : ¬ rgbLt a a := by
  unfold rgbLt; omega

theorem pairwise_rgbLt_nodup {colors : List RGB} (h : colors.Pairwise rgbLt) :
    colors.Nodup :=
  h.imp (fun hab => by rintro rfl; exact rgbLt_irrefl _ hab)

theorem b64Index_b64Char : ∀ n, n < 64 → b64Index (b64Char n) = some n := by decide

theorem b64Char_ne_pad : ∀ n, n < 64 → b64Char n ≠ '=' := by decide

theorem b64UrlEncode_length_mod4 : ∀ (l : List Nat), (b64UrlEncode l).length % 4 = 0
  | [] => rfl
  | [_] => by simp [b64UrlEncode]
  | [_, _] => by simp [b64UrlEncode]
  | b1 :: b2 :: b3 :: rest => by
    have ih := b64UrlEncode_length_mod4 rest
    simp only [b64UrlEncode, List.length_cons]
    omega

theorem b64_roundtrip : ∀ (l : List Nat), (∀ x ∈ l, x < 256) →
    b64UrlDecode (b64UrlEncode l) = some l
  | [], _ => rfl
  | [b1], hb => by
    have h1 : b1 < 256 := hb b1 (by simp)
    have e1 : b64Index (b64Char (b1 / 4)) = some (b1 / 4) :=
      b64Index_b64Char _ (by omega)
    have e2 : b64Index (b64Char (b1 % 4 * 16)) = some (b1 % 4 * 16) :=
      b64Index_b64Char _ (by omega)
    show b64UrlDecode [b64Char (b1 / 4), b64Char (b1 % 4 * 16), '=', '='] = some [b1]
    rw [b64UrlDecode.eq_def]
    dsimp only []
    rw [e1, e2]
    dsimp only []
    rw [if_pos rfl, if_pos ⟨rfl, rfl⟩]
    simp only [Option.some.injEq, List.cons.injEq, and_true]
    omega
  | [b1, b2], hb => by
    have h1 : b1 < 256 := hb b1 (by simp)
    have h2 : b2 < 256 := hb b2 (by simp)
    have e1 : b64Index (b64Char (b1 / 4)) = some (b1 / 4) :=
      b64Index_b64Char _ (by omega)
    have e2 : b64Index (b64Char (b1 % 4 * 16 + b2 / 16)) = some (b1 % 4 * 16 + b2 / 16) :=
      b64Index_b64Char _ (by omega)
    have e3 : b64Index (b64Char (b2 % 16 * 4)) = some (b2 % 16 * 4) :=
      b64Index_b64Char _ (by omega)
    have ne3 : ¬ (b64Char (b2 % 16 * 4) = '=') := b64Char_ne_pad _ (by omega)
    show b64UrlDecode [b64Char (b1 / 4), b64Char (b1 % 4 * 16 + b2 / 16),
        b64Char (b2 % 16 * 4), '='] = some [b1, b2]
    rw [b64UrlDecode.eq_def]
    dsimp only []
    rw [e1, e2]
    dsimp only []
    rw [if_neg ne3, e3]
    dsimp only []
    rw [if_pos rfl, if_pos rfl]
    simp only [Option.some.injEq, List.cons.injEq, and_true]
    omega
  | b1 :: b2 :: b3 :: rest, hb => by
    have h1 : b1 < 256 := hb b1 (by simp)
    have h2 : b2 < 256 := hb b2 (by simp)
    have h3 : b3 < 256 := hb b3 (by simp)
    have ih := b64_roundtrip rest (fun x hx => hb x (by simp [hx]))
    have e1 : b64Index (b64Char (b1 / 4)) = some (b1 / 4) :=
      b64Index_b64Char _ (by omega)
    have e2 : b64Index (b64Char (b1 % 4 * 16 + b2 / 16)) = some (b1 % 4 * 16 + b2 / 16) :=
      b64Index_b64Char _ (by omega)
    have e3 : b64Index (b64Char (b2 % 16 * 4 + b3 / 64)) = some (b2 % 16 * 4 + b3 / 64) :=
      b64Index_b64Char _ (by omega)
    have e4 : b64Index (b64Char (b3 % 64)) = some (b3 % 64) :=
      b64Index_b64Char _ (by omega)
    have ne3 : ¬ (b64Char (b2 % 16 * 4 + b3 / 64) = '=') := b64Char_ne_pad _ (by omega)
    have ne4 : ¬ (b64Char (b3 % 64) = '=') := b64Char_ne_pad _ (by omega)
    show b64UrlDecode (b64Char (b1 / 4) :: b64Char (b1 % 4 * 16 + b2 / 16) ::
        b64Char (b2 % 16 * 4 + b3 / 64) :: b64Char (b3 % 64) :: b64UrlEncode rest)
        = some (b1 :: b2 :: b3 :: rest)
    rw [b64UrlDecode.eq_def]
    dsimp only []
    rw [e1, e2]
    dsimp only []
    rw [if_neg ne3, e3]
    dsimp only []
    rw [if_neg ne4, e4]
    dsimp only []
    rw [ih]
    simp only [Option.map_some', Option.some.injEq, List.cons.injEq, and_true]
    omega

theorem fixPadding_of_mod4 {s : List Char} (h : s.length % 4 = 0) :
    fixPadding s = s := by
  simp [fixPadding, h]

theorem char_toNat_valid (c : Char) :
    c.toNat < 55296 ∨ (57344 ≤ c.toNat ∧ c.toNat < 1114112) := c.valid

theorem utf8DecodeIgnore_encodeChar (c : Char) (rest : List Nat) :
    utf8DecodeIgnore (utf8EncodeChar c ++ rest) = c :: utf8DecodeIgnore rest := by
  have hval := char_toNat_valid c
  have hofn : Char.ofNat c.toNat = c := Char.ofNat_toNat c
  unfold utf8EncodeChar
  by_cases q1 : c.toNat < 128
  · rw [if_pos q1, List.singleton_append, utf8DecodeIgnore.eq_def]
    dsimp only []
    rw [if_pos q1, hofn]
  · by_cases q2 : c.toNat < 2048
    · rw [if_neg q1, if_pos q2, List.cons_append, List.cons_append, List.nil_append]
      have hb : ¬ (192 + c.toNat / 64 < 128) := by omega
      have hc1 : 194 ≤ 192 + c.toNat / 64 ∧ 192 + c.toNat / 64 ≤ 223 := by omega
      have hcont : contOK (128 + c.toNat % 64) = true := by
        simp only [contOK, Bool.and_eq_true, decide_eq_true_eq]
        omega
      rw [utf8DecodeIgnore.eq_def]
      dsimp only []
      rw [if_neg hb, if_pos hc1, if_pos hcont]
      have harith : (192 + c.toNat / 64 - 192) * 64 + (128 + c.toNat % 64 - 128)
          = c.toNat := by omega
      rw [harith, hofn]
    · by_cases q3 : c.toNat < 65536
      · rw [if_neg q1, if_neg q2, if_pos q3, List.cons_append, List.cons_append,
          List.cons_append, List.nil_append]
        have hb : ¬ (224 + c.toNat / 4096 < 128) := by omega
        have hb2 : ¬ (194 ≤ 224 + c.toNat / 4096 ∧ 224 + c.toNat / 4096 ≤ 223) := by omega
        have hc1 : 224 ≤ 224 + c.toNat / 4096 ∧ 224 + c.toNat / 4096 ≤ 239 := by omega
        have hcont2 : cont2OK (224 + c.toNat / 4096) (128 + c.toNat / 64 % 64) = true := by
          unfold cont2OK contOK
          split_ifs with hE0 hED
          · simp only [Bool.and_eq_true, decide_eq_true_eq]
            omega
          · simp only [Bool.and_eq_true, decide_eq_true_eq]
            omega
          · simp only [Bool.and_eq_true, decide_eq_true_eq]
            omega
        have hcont : contOK (128 + c.toNat % 64) = true := by
          simp only [contOK, Bool.and_eq_true, decide_eq_true_eq]
          omega
        rw [utf8DecodeIgnore.eq_def]
        dsimp only []
        rw [if_neg hb, if_neg hb2, if_pos hc1, if_pos hcont2, if_pos hcont]
        have harith : (224 + c.toNat / 4096 - 224) * 4096 +
            (128 + c.toNat / 64 % 64 - 128) * 64 + (128 + c.toNat % 64 - 128)
            = c.toNat := by omega
        rw [harith, hofn]
      · rw [if_neg q1, if_neg q2, if_neg q3, List.cons_append, List.cons_append,
          List.cons_append, List.cons_append, List.nil_append]
        have hn4 : c.toNat < 1114112 := by omega
        have hb : ¬ (240 + c.toNat / 262144 < 128) := by omega
        have hb2 : ¬ (194 ≤ 240 + c.toNat / 262144 ∧ 240 + c.toNat / 262144 ≤ 223) := by
          omega
        have hb3 : ¬ (224 ≤ 240 + c.toNat / 262144 ∧ 240 + c.toNat / 262144 ≤ 239) := by
          omega
        have hc1 : 240 ≤ 240 + c.toNat / 262144 ∧ 240 + c.toNat / 262144 ≤ 244 := by
          omega
        have hcont3 : cont3OK (240 + c.toNat / 262144) (128 + c.toNat / 4096 % 64)
            = true := by
          unfold cont3OK contOK
          split_ifs with hF0 hF4
          · simp only [Bool.and_eq_true, decide_eq_true_eq]
            omega
          · simp only [Bool.and_eq_true, decide_eq_true_eq]
            omega
          · simp only [Bool.and_eq_true, decide_eq_true_eq]
            omega
        have hcontb : contOK (128 + c.toNat / 64 % 64) = true := by
          simp only [contOK, Bool.and_eq_true, decide_eq_true_eq]
          omega
        have hcont : contOK (128 + c.toNat % 64) = true := by
          simp only [contOK, Bool.and_eq_true, decide_eq_true_eq]
          omega
        rw [utf8DecodeIgnore.eq_def]
        dsimp only []
        rw [if_neg hb, if_neg hb2, if_neg hb3, if_pos hc1, if_pos hcont3, if_pos hcontb,
          if_pos hcont]
        have harith : (240 + c.toNat / 262144 - 240) * 262144 +
            (128 + c.toNat / 4096 % 64 - 128) * 4096 +
            (128 + c.toNat / 64 % 64 - 128) * 64 + (128 + c.toNat % 64 - 128)
            = c.toNat := by omega
        rw [harith, hofn]

theorem utf8_decode_encode (s : List Char) (rest : List Nat) :
    utf8DecodeIgnore (utf8Encode s ++ rest) = s ++ utf8DecodeIgnore rest := by
  induction s with
  | nil => simp [utf8Encode]
  | cons c cs ih =>
    rw [utf8Encode, List.flatMap_cons, List.append_assoc]
    rw [show (List.flatMap cs utf8EncodeChar) = utf8Encode cs from rfl]
    rw [utf8DecodeIgnore_encodeChar, ih, List.cons_append]

theorem utf8_decode_encode_nil (s : List Char) :
    utf8DecodeIgnore (utf8Encode s) = s := by
  have h := utf8_decode_encode s []
  rw [List.append_nil] at h
  rw [h]
  simp [utf8DecodeIgnore]

theorem utf8DecodeIgnore_255 (rest : List Nat) :
    utf8DecodeIgnore (255 :: rest) = utf8DecodeIgnore rest := by
  have h1 : ¬ ((255 : Nat) < 128) := by omega
  have h2 : ¬ (194 ≤ (255 : Nat) ∧ (255 : Nat) ≤ 223) := by omega
  have h3 : ¬ (224 ≤ (255 : Nat) ∧ (255 : Nat) ≤ 239) := by omega
  have h4 : ¬ (240 ≤ (255 : Nat) ∧ (255 : Nat) ≤ 244) := by omega
  rw [utf8DecodeIgnore.eq_def]
  dsimp only []
  rw [if_neg h1, if_neg h2, if_neg h3, if_neg h4]

theorem mem_pySetAdd (s : List RGB) (c a : RGB) :
    a ∈ pySetAdd s c ↔ a ∈ s ∨ a = c := by
  unfold pySetAdd
  by_cases hc : c ∈ s
  · rw [if_pos hc]
    constructor
    · exact Or.inl
    · rintro (h | rfl)
      · exact h
      · exact hc
  · rw [if_neg hc]
    simp

theorem pySetAdd_nodup {s : List RGB} (c : RGB) (h : s.Nodup) :
    (pySetAdd s c).Nodup := by
  unfold pySetAdd
  by_cases hc : c ∈ s
  · rwa [if_pos hc]
  · rw [if_neg hc]
    simpa [List.nodup_append] using ⟨h, fun hcs => hc hcs⟩

theorem collectColors_fold (pixels : List RGBA) : ∀ (s0 : List RGB) (t0 : Nat),
    s0.Nodup →
    (pixels.foldl
       (fun acc p =>
         if p.2.2.2 = 255 then (pySetAdd acc.1 (p.1, p.2.1, p.2.2.1), acc.2)
         else (acc.1, acc.2 + 1)) (s0, t0)).1.Nodup ∧
    (∀ c, c ∈ (pixels.foldl
       (fun acc p =>
         if p.2.2.2 = 255 then (pySetAdd acc.1 (p.1, p.2.1, p.2.2.1), acc.2)
         else (acc.1, acc.2 + 1)) (s0, t0)).1 ↔ c ∈ s0 ∨ c ∈ opaqueColorsOf pixels) ∧
    (pixels.foldl
       (fun acc p =>
         if p.2.2.2 = 255 then (pySetAdd acc.1 (p.1, p.2.1, p.2.2.1), acc.2)
         else (acc.1, acc.2 + 1)) (s0, t0)).2 = t0 + transparentCountOf pixels := by
  induction pixels with
  | nil =>
    intro s0 t0 h0
    simp [opaqueColorsOf, transparentCountOf, h0]
  | cons p rest ih =>
    intro s0 t0 h0
    by_cases ha : p.2.2.2 = 255
    · simp only [List.foldl_cons, if_pos ha]
      obtain ⟨ihn, ihm, iht⟩ := ih (pySetAdd s0 (p.1, p.2.1, p.2.2.1)) t0
        (pySetAdd_nodup _ h0)
      refine ⟨ihn, ?_, ?_⟩
      · intro c
        rw [ihm c, mem_pySetAdd]
        unfold opaqueColorsOf rgbOf
        rw [List.filter_cons_of_pos (by simpa using ha)]
        simp only [List.map_cons, List.mem_cons]
        tauto
      · rw [iht]
        unfold transparentCountOf
        rw [List.filter_cons_of_neg (by simpa using ha)]
    · simp only [List.foldl_cons, if_neg ha]
      obtain ⟨ihn, ihm, iht⟩ := ih s0 (t0 + 1) h0
      refine ⟨ihn, ?_, ?_⟩
      · intro c
        rw [ihm c]
        unfold opaqueColorsOf rgbOf
        rw [List.filter_cons_of_neg (by simpa using ha)]
      · rw [iht]
        unfold transparentCountOf
        rw [List.filter_cons_of_pos (by simpa using ha)]
        simp only [List.length_cons]
        omega

theorem collectColors_spec (pixels : List RGBA) :
    (collectColors pixels).1.Nodup ∧
    (∀ c, c ∈ (collectColors pixels).1 ↔ c ∈ opaqueColorsOf pixels) ∧
    (collectColors pixels).2 = transparentCountOf pixels := by
  obtain ⟨h1, h2, h3⟩ := collectColors_fold pixels [] 0 List.nodup_nil
  exact ⟨h1, fun c => by rw [collectColors]; rw [h2 c]; simp,
    by rw [collectColors]; rw [h3]; omega⟩

theorem nodup_length_eq_card {S T : List RGB} (hS : S.Nodup)
    (hiff : ∀ c, c ∈ S ↔ c ∈ T) : S.length = T.toFinset.card := by
  have hf : S.toFinset = T.toFinset := by
    apply Finset.ext
    intro c
    simp only [List.mem_toFinset]
    exact hiff c
  rw [← List.toFinset_card_of_nodup hS, hf]

theorem rgbLe_total (a b : RGB) : rgbLe a b || rgbLe b a := by
  unfold rgbLe
  simp only [Bool.or_eq_true, decide_eq_true_eq]
  omega

theorem rgbLe_trans (a b c : RGB) : rgbLe a b → rgbLe b c → rgbLe a c := by
  unfold rgbLe
  simp only [decide_eq_true_eq]
  omega

theorem pairwise_rgbLt_of_le_nodup {l : List RGB}
    (hs : l.Pairwise (fun a b => rgbLe a b = true)) (hnd : l.Nodup) :
    l.Pairwise rgbLt := by
  have hand := hs.and hnd
  apply hand.imp
  rintro ⟨a1, a2, a3⟩ ⟨b1, b2, b3⟩ ⟨hle, hne⟩
  simp only [rgbLe, decide_eq_true_eq] at hle
  simp only [ne_eq, Prod.mk.injEq, not_and] at hne
  unfold rgbLt
  simp only []
  by_cases e1 : a1 = b1
  · by_cases e2 : a2 = b2
    · have e3 : a3 ≠ b3 := fun h3 => hne e1 e2 h3
      omega
    · omega
  · omega

theorem mem_blockTuples {getpix : Nat → Nat → RGBA} {w h : Nat} {bt : BlockTuple} :
    bt ∈ blockTuples getpix w h ↔
      bt.row < h ∧ bt.col < w ∧ (getpix bt.col bt.row).2.2.2 = 255 ∧
      bt.xPos = (bt.col : ℚ) * (15 / 2 : ℚ) ∧
      bt.yPos = ((h - 1 - bt.row : Nat) : ℚ) * (15 / 2 : ℚ) ∧
      bt.color = rgbOf (getpix bt.col bt.row) := by
  obtain ⟨r0, c0, x0, y0, col0⟩ := bt
  simp only [blockTuples, List.mem_flatMap, List.mem_filterMap, List.mem_range,
    Option.ite_none_right_eq_some, Option.some.injEq, rgbOf]
  constructor
  · rintro ⟨row, hrow, col, hcol, ha, heq⟩
    cases heq
    refine ⟨hrow, hcol, ha, ?_, ?_, ?_⟩ <;> simp
  · rintro ⟨h1, h2, h3, h4, h5, h6⟩
    refine ⟨r0, h1, c0, h2, h3, ?_⟩
    simp only [BlockTuple.mk.injEq]
    exact ⟨trivial, trivial, h4.symm, h5.symm, h6.symm⟩

theorem blockTuples_keys (getpix : Nat → Nat → RGBA) (w h : Nat) :
    (blockTuples getpix w h).map (fun bt => (bt.row, bt.col)) =
      (List.range h).flatMap (fun row => (List.range w).filterMap
        (fun col => if (getpix col row).2.2.2 = 255 then some (row, col) else none)) := by
  unfold blockTuples
  rw [List.map_flatMap]
  congr 1
  funext row
  rw [List.map_filterMap]
  congr 1
  funext col
  by_cases ha : (getpix col row).2.2.2 = 255
  · simp only [if_pos ha, Option.map_some']
  · simp only [if_neg ha, Option.map_none']

theorem blockTuples_keys_nodup (getpix : Nat → Nat → RGBA) (w h : Nat) :
    ((blockTuples getpix w h).map (fun bt => (bt.row, bt.col))).Nodup := by
  rw [blockTuples_keys]
  rw [List.nodup_flatMap]
  constructor
  · intro row _
    apply List.Nodup.filterMap ?inj (List.nodup_range w)
    case inj =>
      intro a a' b hb hb'
      rw [Option.mem_def] at hb hb'
      split at hb
      · split at hb'
        · cases hb
          cases hb'
          rfl
        · cases hb'
      · cases hb
  · have hpw : (List.range h).Pairwise (· < ·) := List.pairwise_lt_range h
    apply hpw.imp
    intro r1 r2 hlt
    intro key hk1 hk2
    simp only [List.mem_filterMap] at hk1 hk2
    obtain ⟨c1, _, he1⟩ := hk1
    obtain ⟨c2, _, he2⟩ := hk2
    split at he1
    · split at he2
      · cases he1
        cases he2
        omega
      · cases he2
    · cases he1

theorem blockLE_total (b1 b2 : BlockTuple) : blockLE b1 b2 || blockLE b2 b1 := by
  unfold blockLE
  simp only [Bool.or_eq_true, decide_eq_true_eq]
  rcases lt_trichotomy b1.yPos b2.yPos with hy | hy | hy
  · exact Or.inr (Or.inl hy)
  · rcases le_total b1.xPos b2.xPos with hx | hx
    · exact Or.inl (Or.inr ⟨hy, hx⟩)
    · exact Or.inr (Or.inr ⟨hy.symm, hx⟩)
  · exact Or.inl (Or.inl hy)

theorem blockLE_trans (a b c : BlockTuple) :
    blockLE a b → blockLE b c → blockLE a c := by
  unfold blockLE
  simp only [decide_eq_true_eq]
  rintro (hab | ⟨hab, hxab⟩) (hbc | ⟨hbc, hxbc⟩)
  · exact Or.inl (lt_trans hbc hab)
  · exact Or.inl (hbc ▸ hab)
  · exact Or.inl (hab ▸ hbc)
  · exact Or.inr ⟨hab.trans hbc, hxab.trans hxbc⟩

theorem foldl_dedup_mem (cs : List RGB) : ∀ (acc : List RGB) (c : RGB),
    c ∈ cs.foldl (fun acc c => if c ∈ acc then acc else acc ++ [c]) acc ↔
      c ∈ acc ∨ c ∈ cs := by
  induction cs with
  | nil => simp
  | cons c0 rest ih =>
    intro acc c
    simp only [List.foldl_cons]
    by_cases hc : c0 ∈ acc
    · rw [if_pos hc, ih]
      constructor
      · rintro (h | h)
        · exact Or.inl h
        · exact Or.inr (List.mem_cons_of_mem _ h)
      · rintro (h | h)
        · exact Or.inl h
        · rcases List.mem_cons.mp h with rfl | h2
          · exact Or.inl hc
          · exact Or.inr h2
    · rw [if_neg hc, ih]
      simp only [List.mem_append, List.mem_singleton, List.mem_cons]
      tauto

theorem foldl_dedup_nodup (cs : List RGB) : ∀ (acc : List RGB), acc.Nodup →
    (cs.foldl (fun acc c => if c ∈ acc then acc else acc ++ [c]) acc).Nodup := by
  induction cs with
  | nil => intro acc h; simpa using h
  | cons c0 rest ih =>
    intro acc hacc
    simp only [List.foldl_cons]
    by_cases hc : c0 ∈ acc
    · rw [if_pos hc]; exact ih acc hacc
    · rw [if_neg hc]
      apply ih
      simpa [List.nodup_append] using ⟨hacc, fun hmem => hc hmem⟩

theorem mem_firstSeen (cs : List RGB) (c : RGB) : c ∈ firstSeen cs ↔ c ∈ cs := by
  unfold firstSeen
  rw [foldl_dedup_mem]
  simp

theorem firstSeen_nodup (cs : List RGB) : (firstSeen cs).Nodup :=
  foldl_dedup_nodup cs [] List.nodup_nil

theorem lookup_zip_range' (seen : List RGB) : ∀ (k : Nat) (c : RGB), c ∈ seen →
    seen.Nodup →
    List.lookup c (seen.zip (List.range' k seen.length)) =
      some (seen.indexOf c + k) := by
  induction seen with
  | nil => intro k c h; simp at h
  | cons a rest ih =>
    intro k c hmem hnd
    rw [List.length_cons, List.range'_succ, List.zip_cons_cons, List.lookup_cons]
    by_cases hca : c = a
    · subst hca
      simp only [beq_self_eq_true, List.indexOf_cons, cond_true]
      simp
    · have hbeq : (c == a) = false := beq_eq_false_iff_ne.mpr hca
      have hbeq2 : (a == c) = false := beq_eq_false_iff_ne.mpr (fun h => hca h.symm)
      simp only [hbeq]
      have hmem2 : c ∈ rest := by
        rcases List.mem_cons.mp hmem with rfl | h2
        · exact absurd rfl hca
        · exact h2
      rw [ih (k + 1) c hmem2 (List.nodup_cons.mp hnd).2]
      simp only [List.indexOf_cons, hbeq2, cond_false, Option.some.injEq]
      omega

theorem lookup_numberedFrom1 (seen : List RGB) (c : RGB) (h : c ∈ seen)
    (hnd : seen.Nodup) :
    List.lookup c (numberedFrom1 seen) = some (seen.indexOf c + 1) :=
  lookup_zip_range' seen 1 c h hnd

theorem lookup_numberedFrom1_isSome (seen : List RGB) (c : RGB) :
    (List.lookup c (numberedFrom1 seen)).isSome ↔ c ∈ seen := by
  rw [List.lookup_isSome_iff]
  unfold numberedFrom1
  constructor
  · rintro ⟨p, hp, hbeq⟩
    have := List.of_mem_zip hp
    have hc : c = p.1 := by simpa using hbeq
    exact hc ▸ this.1
  · intro hmem
    obtain ⟨i, hget⟩ := List.mem_iff_get.mp hmem
    refine ⟨(c, i.1 + 1), ?_, by simp⟩
    have hlen : (List.range' 1 seen.length).length = seen.length := by simp
    apply List.mem_iff_get.mpr
    refine ⟨⟨i.1, by simp only [List.length_zip, hlen, Nat.min_self]; exact i.2⟩, ?_⟩
    rw [List.get_zip]
    simp only [Prod.mk.injEq]
    constructor
    · exact hget
    · have hbound : i.1 < (List.range' 1 seen.length).length := by
        rw [hlen]; exact i.2
      simp only [List.get_eq_getElem, List.getElem_range']
      omega

theorem numberedFrom1_append_one (seen : List RGB) (c : RGB) :
    numberedFrom1 (seen ++ [c]) = numberedFrom1 seen ++ [(c, seen.length + 1)] := by
  unfold numberedFrom1
  rw [List.length_append, List.length_singleton, List.range'_concat,
    List.zip_append (by simp)]
  simp [Nat.add_comm]

theorem assignSequences_fold (blocks : List BlockTuple) : ∀ (seen : List RGB),
    blocks.foldl
      (fun st bt =>
        if (List.lookup bt.color st.1).isSome then st
        else (st.1 ++ [(bt.color, st.2)], st.2 + 1))
      (numberedFrom1 seen, seen.length + 1) =
    (numberedFrom1
        ((blocks.map (fun bt => bt.color)).foldl
          (fun acc c => if c ∈ acc then acc else acc ++ [c]) seen),
      ((blocks.map (fun bt => bt.color)).foldl
          (fun acc c => if c ∈ acc then acc else acc ++ [c]) seen).length + 1) := by
  induction blocks with
  | nil => intro seen; simp
  | cons bt rest ih =>
    intro seen
    simp only [List.foldl_cons, List.map_cons]
    by_cases hc : bt.color ∈ seen
    · rw [if_pos ((lookup_numberedFrom1_isSome seen bt.color).mpr hc), if_pos hc]
      exact ih seen
    · rw [if_neg (by rw [lookup_numberedFrom1_isSome]; exact hc), if_neg hc]
      rw [← numberedFrom1_append_one]
      have := ih (seen ++ [bt.color])
      simpa [List.length_append] using this

theorem assignSequences_eq (blocks : List BlockTuple) :
    assignSequences blocks =
      numberedFrom1 (firstSeen (blocks.map (fun bt => bt.color))) := by
  have h01 : (([], 1) : List (RGB × Nat) × Nat) =
      (numberedFrom1 ([] : List RGB), ([] : List RGB).length + 1) := by
    simp [numberedFrom1]
  unfold assignSequences firstSeen
  rw [h01, assignSequences_fold blocks ([] : List RGB)]

/-! ## Claim theorems -/

/-- **C3** — palette extraction counts every pixel whose alpha is not 255 as
transparent and collects the `(r,g,b)` of every fully opaque pixel into a
deduplicated set; it fails carrying the exact distinct-color count exactly
when that set has more than 512 elements, and on success returns the set as
a duplicate-free list sorted strictly ascending by `(r,g,b)` together with
the distinct count and the transparent-pixel count.  (Succeeding on exactly
512 distinct opaque colors and failing reporting 513 on exactly 513 are the
boundary instances of the 512-threshold equivalence.) -/
theorem C3_extract_colors (pixels : List RGBA) :
    match extract_colors_from_image pixels with
    | .failure c =>
        512 < (opaqueColorsOf pixels).toFinset.card ∧
        c = (opaqueColorsOf pixels).toFinset.card
    | .success colors cc tc =>
        (opaqueColorsOf pixels).toFinset.card ≤ 512 ∧
        colors.Pairwise rgbLt ∧
        (∀ c, c ∈ colors ↔ c ∈ opaqueColorsOf pixels) ∧
        colors.Nodup ∧
        cc = (opaqueColorsOf pixels).toFinset.card ∧
        tc = transparentCountOf pixels := by
  obtain ⟨hnd, hmem, htc⟩ := collectColors_spec pixels
  have hcard : (collectColors pixels).1.length = (opaqueColorsOf pixels).toFinset.card :=
    nodup_length_eq_card hnd hmem
  unfold extract_colors_from_image
  by_cases hover : 512 < (collectColors pixels).1.length
  · rw [if_pos hover]
    exact ⟨hcard ▸ hover, hcard⟩
  · rw [if_neg hover]
    have hperm : List.Perm ((collectColors pixels).1.mergeSort rgbLe)
        (collectColors pixels).1 :=
      List.mergeSort_perm _ _
    have hsortnd : ((collectColors pixels).1.mergeSort rgbLe).Nodup :=
      hperm.nodup_iff.mpr hnd
    refine ⟨hcard ▸ Nat.le_of_not_lt hover, ?_, ?_, hsortnd, hcard, htc⟩
    · exact pairwise_rgbLt_of_le_nodup
        (List.sorted_mergeSort rgbLe_trans rgbLe_total _) hsortnd
    · intro c
      rw [List.mem_mergeSort]
      exact hmem c

/-- **C1** — the payload-field codec round-trips: for every string `s` (of
Unicode scalar values, i.e. every valid-UTF-8-encodable Python string) and
every gzip pair whose decompression inverts its compression (true of
`gzip.compress(·, mtime=0, compresslevel=6)` / `gzip.decompress`) and whose
compressed output is a byte string, decoding the encoding of `s` — pad with
`'='` to a multiple of 4, URL-safe base64 decode, gzip decompress, UTF-8
decode — returns exactly `s`. -/
theorem C1_payload_roundtrip (gzipC : List Nat → List Nat)
    (gunzip : List Nat → Option (List Nat))
    (hinv : ∀ bs, gunzip (gzipC bs) = some bs) (s : List Char)
    (hbytes : ∀ x ∈ gzipC (utf8Encode s), x < 256) :
    decode_k4 gunzip (encode_k4 gzipC s) = some s := by
  unfold encode_k4 decode_k4
  rw [fixPadding_of_mod4 (b64UrlEncode_length_mod4 _), b64_roundtrip _ hbytes]
  dsimp only []
  rw [hinv (utf8Encode s)]
  dsimp only []
  rw [utf8_decode_encode_nil]

/-- Witness for C1 at `s = "ok"` with the identity gzip pair. -/
theorem C1_payload_roundtrip_witness :
    decode_k4 some (encode_k4 (fun bs => bs) ['o', 'k']) = some ['o', 'k'] :=
  C1_payload_roundtrip (fun bs => bs) some (fun _ => rfl) ['o', 'k'] (by decide)

/-- **C9** — counterexample to the claim as stated: when the
gzip-decompressed bytes are the invalid UTF-8 sequence `[0xFF]`, `decode_k4`
succeeds but produces the EMPTY string — the invalid sequence is dropped by
`errors='ignore'`, not replaced by the replacement character U+FFFD as the
claim asserts. -/
theorem C9_counterexample :
    decode_k4 (fun _ => some [255]) [] = some [] ∧
    ([] : List Char) ≠ ['�'] := by
  constructor
  · show (match b64UrlDecode (fixPadding []) with
      | none => none
      | some compressed =>
        match (fun _ => some [255] : List Nat → Option (List Nat)) compressed with
        | none => none
        | some bytes => some (utf8DecodeIgnore bytes)) = some []
    have h0 : fixPadding [] = [] := fixPadding_of_mod4 (by simp)
    rw [h0]
    show some (utf8DecodeIgnore [255]) = some []
    rw [utf8DecodeIgnore_255]
    rfl
  · decide

/-- **C9 (amended)** — payload decoding decodes the decompressed bytes as
UTF-8 with invalid byte sequences DROPPED (Pythonʼs `errors='ignore'`)
rather than the decode being rejected: when the gzip-decompressed bytes are
a valid encoding of `s`, then the invalid byte `0xFF`, then a valid encoding
of `t`, decoding still succeeds and returns `s ++ t`, the invalid byte
removed from the output. -/
theorem C9_decode_ignores_invalid (gunzip : List Nat → Option (List Nat))
    (k4 : List Char) (comp : List Nat) (s t : List Char)
    (hb64 : b64UrlDecode (fixPadding k4) = some comp)
    (hgz : gunzip comp = some (utf8Encode s ++ 255 :: utf8Encode t)) :
    decode_k4 gunzip k4 = some (s ++ t) := by
  unfold decode_k4
  rw [hb64]
  dsimp only []
  rw [hgz]
  dsimp only []
  have h1 : utf8DecodeIgnore (utf8Encode s ++ 255 :: utf8Encode t) = s ++ t := by
    rw [utf8_decode_encode s (255 :: utf8Encode t), utf8DecodeIgnore_255,
      utf8_decode_encode_nil]
  rw [h1]

/-- Witness for C9 (amended): decompressed bytes `utf8("a") ++ [0xFF] ++
utf8("b")` decode to `"ab"`. -/
theorem C9_decode_ignores_invalid_witness :
    decode_k4 (fun _ => some (utf8Encode ['a'] ++ 255 :: utf8Encode ['b'])) []
      = some (['a'] ++ ['b']) :=
  C9_decode_ignores_invalid _ [] [] ['a'] ['b']
    (by rw [fixPadding_of_mod4 (by simp)]; rfl) rfl

/-- **C4** — the record compiler emits exactly one record per fully opaque
pixel at `(col, row)` (membership equivalence plus key uniqueness), with
`worldX = col * 7.5` and `worldY = (H - 1 - row) * 7.5`; the emitted
sequence is sorted by descending `worldY` with ties broken by ascending
`worldX`; and walking the records in that order, each record carries the
sequence number `k + 1` where `k` is the rank of its color in
first-encounter order — so the first record of each color receives the next
unused positive integer starting at 1, and every later record of the same
color reuses it. -/
theorem C4_record_compiler (getpix : Nat → Nat → RGBA) (w h : Nat) :
    (∀ r c, (∃ p ∈ generate_block_data getpix w h, p.1.row = r ∧ p.1.col = c) ↔
        (r < h ∧ c < w ∧ (getpix c r).2.2.2 = 255)) ∧
    (∀ p ∈ generate_block_data getpix w h,
       p.1.row < h ∧ p.1.col < w ∧ (getpix p.1.col p.1.row).2.2.2 = 255 ∧
       p.1.xPos = (p.1.col : ℚ) * (15 / 2 : ℚ) ∧
       p.1.yPos = ((h - 1 - p.1.row : Nat) : ℚ) * (15 / 2 : ℚ) ∧
       p.1.color = rgbOf (getpix p.1.col p.1.row)) ∧
    ((generate_block_data getpix w h).map (fun p => (p.1.row, p.1.col))).Nodup ∧
    (generate_block_data getpix w h).Pairwise (fun p q =>
       q.1.yPos < p.1.yPos ∨ (p.1.yPos = q.1.yPos ∧ p.1.xPos ≤ q.1.xPos)) ∧
    (∀ p ∈ generate_block_data getpix w h,
       p.2 = (firstSeen ((sortedBlocks getpix w h).map (fun bt => bt.color))).indexOf
         p.1.color + 1) := by
  have hperm : List.Perm (sortedBlocks getpix w h) (blockTuples getpix w h) :=
    List.mergeSort_perm _ _
  have hout : generate_block_data getpix w h =
      (sortedBlocks getpix w h).map (fun bt =>
        (bt, (List.lookup bt.color (assignSequences (sortedBlocks getpix w h))).getD 0)) := by
    rfl
  refine ⟨?mem, ?fields, ?uniq, ?order, ?seq⟩
  case mem =>
    intro r c
    rw [hout]
    constructor
    · rintro ⟨p, hp, hr, hc⟩
      obtain ⟨bt, hbt, rfl⟩ := List.mem_map.mp hp
      have := mem_blockTuples.mp (hperm.mem_iff.mp hbt)
      subst hr
      subst hc
      exact ⟨this.1, this.2.1, this.2.2.1⟩
    · rintro ⟨h1, h2, h3⟩
      refine ⟨(⟨r, c, (c : ℚ) * (15 / 2 : ℚ), ((h - 1 - r : Nat) : ℚ) * (15 / 2 : ℚ),
          rgbOf (getpix c r)⟩,
          (List.lookup (rgbOf (getpix c r))
            (assignSequences (sortedBlocks getpix w h))).getD 0), ?_, rfl, rfl⟩
      apply List.mem_map.mpr
      refine ⟨_, ?_, rfl⟩
      exact hperm.mem_iff.mpr (mem_blockTuples.mpr ⟨h1, h2, h3, rfl, rfl, rfl⟩)
  case fields =>
    intro p hp
    rw [hout] at hp
    obtain ⟨bt, hbt, rfl⟩ := List.mem_map.mp hp
    exact mem_blockTuples.mp (hperm.mem_iff.mp hbt)
  case uniq =>
    rw [hout, List.map_map]
    have hkey : ((fun p : BlockTuple × Nat => (p.1.row, p.1.col)) ∘ (fun bt =>
        (bt, (List.lookup bt.color (assignSequences (sortedBlocks getpix w h))).getD 0)))
        = fun bt : BlockTuple => (bt.row, bt.col) := rfl
    rw [hkey]
    exact (hperm.map _).nodup_iff.mpr (blockTuples_keys_nodup getpix w h)
  case order =>
    rw [hout]
    apply List.pairwise_map.mpr
    have hs : (sortedBlocks getpix w h).Pairwise (fun a b => blockLE a b = true) :=
      List.sorted_mergeSort blockLE_trans blockLE_total _
    apply hs.imp
    intro a b hab
    simpa only [blockLE, decide_eq_true_eq] using hab
  case seq =>
    intro p hp
    rw [hout] at hp
    obtain ⟨bt, hbt, rfl⟩ := List.mem_map.mp hp
    have hcmem : bt.color ∈ (sortedBlocks getpix w h).map (fun bt => bt.color) :=
      List.mem_map.mpr ⟨bt, hbt, rfl⟩
    rw [assignSequences_eq,
      lookup_numberedFrom1 _ _ ((mem_firstSeen _ _).mpr hcmem) (firstSeen_nodup _)]
    rfl

/-- **C8** — refinement/equivalence: the two-pass ID construction of
`generate_color_id_mapping` (descending list `start_id … end_id`, reversed,
assigned positionally) produces exactly the same color→ID dictionary as
directly assigning the ascending IDs `end_id, end_id+1, …, start_id` to the
colors in order — for every color list and every `start_id`. -/
theorem C8_two_pass_equals_direct_ascending (colors : List RGB) (start_id : Int) :
    generate_color_id_mapping colors start_id = directAscendingMapping colors start_id := by
  simp only [generate_color_id_mapping, directAscendingMapping]
  have harg : start_id - (colors.length : Int) + 1 - 1 = start_id - colors.length := by ring
  rw [harg, rangeDown_reverse]

/-- **C2** — for a palette of `n` unique colors sorted strictly ascending,
with `n ≤ 512` and `n < start_id ≤ 999`, the allocation maps the `i`-th
palette color to `start_id - n + 1 + i`: ascending with palette order, the
smallest color receiving `start_id - n + 1`, the largest `start_id`;
the assignment is injective and its image is exactly the integer interval
`[start_id - n + 1, start_id]`. -/
theorem C2_id_allocation_bijection (colors : List RGB) (start_id : Int)
    (hsorted : colors.Pairwise rgbLt) (hsize : colors.length ≤ 512)
    (hlo : (colors.length : Int) < start_id) (hhi : start_id ≤ 999) :
    (∀ i (hi : i < colors.length),
       List.lookup (colors.get ⟨i, hi⟩) (generate_color_id_mapping colors start_id) =
         some (start_id - colors.length + 1 + (i : Int))) ∧
    (∀ i j (hi : i < colors.length) (hj : j < colors.length),
       List.lookup (colors.get ⟨i, hi⟩) (generate_color_id_mapping colors start_id) =
         List.lookup (colors.get ⟨j, hj⟩) (generate_color_id_mapping colors start_id) →
       i = j) ∧
    (∀ id : Int, (start_id - colors.length + 1 ≤ id ∧ id ≤ start_id) ↔
       ∃ i, ∃ hi : i < colors.length,
         List.lookup (colors.get ⟨i, hi⟩) (generate_color_id_mapping colors start_id) =
           some id) := by
  have hnd : colors.Nodup := pairwise_rgbLt_nodup hsorted
  have hkey : ∀ i (hi : i < colors.length),
      List.lookup (colors.get ⟨i, hi⟩) (generate_color_id_mapping colors start_id) =
        some (start_id - colors.length + 1 + (i : Int)) := by
    intro i hi
    rw [generate_color_id_mapping_eq_zip colors start_id hnd]
    have := lookup_zip_nodup colors
      ((List.range colors.length).map
        (fun i : Nat => start_id - colors.length + 1 + (i : Int)))
      hnd (by simp) i hi (by simpa using hi)
    rw [this]
    simp
  refine ⟨hkey, ?inj, ?surj⟩
  case inj =>
    intro i j hi hj heq
    rw [hkey i hi, hkey j hj] at heq
    simp only [Option.some.injEq] at heq
    omega
  case surj =>
    intro id
    constructor
    · rintro ⟨h1, h2⟩
      refine ⟨(id - (start_id - colors.length + 1)).toNat, ⟨by omega, ?_⟩⟩
      rw [hkey _ (by omega)]
      simp only [Option.some.injEq]
      omega
    · rintro ⟨i, hi, heq⟩
      rw [hkey i hi] at heq
      simp only [Option.some.injEq] at heq
      omega

/-- Witness for C2: the three-color palette of the specificationʼs worked
example with `start_id = 999` receives IDs `997, 998, 999`. -/
theorem C2_id_allocation_bijection_witness :
    List.lookup ((0, 0, 0) : RGB)
      (generate_color_id_mapping [(0, 0, 0), (10, 20, 30), (255, 255, 255)] 999) = some 997 := by
  have h := C2_id_allocation_bijection [(0, 0, 0), (10, 20, 30), (255, 255, 255)] 999
    (by decide) (by decide) (by decide) (by decide)
  have h0 := h.1 0 (by decide)
  simpa using h0

/-- **C5** — counterexample to the claim as stated: with palette size 1 and
`start_id = 1000 > 999`, `process_image` does fail, but the failure
dictionary (`tooLarge`) carries NO palette size, whereas the claim asserts
every such failure carries it. -/
theorem C5_counterexample :
    process_image_validate 1 1000 = .tooLarge 1000 ∧
    checkCarriesColorCount (process_image_validate 1 1000) ≠ some 1 := by
  constructor
  · rfl
  · intro h
    simp [process_image_validate, checkCarriesColorCount] at h

/-- **C5 (amended)** — the allocation guards of `process_image` fail whenever
`start_id > 999` (carrying no palette size) or `start_id ≤ color_count`
(carrying the palette size), succeed otherwise; in particular they fail at
`start_id = color_count` and succeed at `start_id = color_count + 1` when
that is at most 999. -/
theorem C5_start_id_validation (color_count : Nat) (start_id : Int)
    (hc : color_count ≤ 512) :
    (999 < start_id →
       process_image_validate color_count start_id = .tooLarge start_id ∧
       checkCarriesColorCount (process_image_validate color_count start_id) = none) ∧
    (start_id ≤ color_count →
       process_image_validate color_count start_id =
         .notGreaterThanCount start_id color_count ∧
       checkCarriesColorCount (process_image_validate color_count start_id) =
         some color_count) ∧
    ((color_count : Int) < start_id → start_id ≤ 999 →
       process_image_validate color_count start_id = .ok) ∧
    (process_image_validate color_count color_count = .notGreaterThanCount color_count color_count) ∧
    ((color_count : Int) + 1 ≤ 999 →
       process_image_validate color_count ((color_count : Int) + 1) = .ok) := by
  refine ⟨?v1, ?v2, ?v3, ?v4, ?v5⟩
  case v1 =>
    intro h
    unfold process_image_validate
    rw [if_pos h]
    exact ⟨rfl, rfl⟩
  case v2 =>
    intro h
    unfold process_image_validate
    rw [if_neg (by omega), if_pos h]
    exact ⟨rfl, rfl⟩
  case v3 =>
    intro h1 h2
    unfold process_image_validate
    rw [if_neg (by omega), if_neg (by omega)]
  case v4 =>
    unfold process_image_validate
    rw [if_neg (by omega), if_pos (by omega)]
  case v5 =>
    intro h
    unfold process_image_validate
    rw [if_neg (by omega), if_neg (by omega)]

/-- Witness for C5 (amended) at palette size 3: `start_id = 4` is accepted. -/
theorem C5_start_id_validation_witness :
    process_image_validate 3 4 = .ok :=
  (C5_start_id_validation 3 4 (by decide)).2.2.1 (by decide) (by decide)

/-- **C10** — code bug: `set_value_by_path` breaks out of its descent loop
one segment early, so (first conjunct) a path whose addressing exists
(`root → a → b` in `{'a': {'b': 1}, 'c': 2}`) is REFUSED with the document
unchanged, and (second conjunct) a path whose addressing does not exist
(`root → a → b` in `{'a': 5, 'b': 7}`, where `a` holds a scalar) RETURNS
TRUE and overwrites the sibling top-level key `'b'` — a node the path does
not address.  Both contradict the claim that the function only overwrites a
value whose addressing already exists and otherwise returns false leaving
the document unchanged. -/
theorem C10_set_value_by_path_bug :
    set_value_by_path (some [("a", .dict [("b", .int 1)]), ("c", .int 2)])
        ["root", "a", "b"] (.int 99)
      = (false, some [("a", .dict [("b", .int 1)]), ("c", .int 2)]) ∧
    set_value_by_path (some [("a", .int 5), ("b", .int 7)])
        ["root", "a", "b"] (.int 99)
      = (true, some [("a", .int 5), ("b", .int 99)]) :=
  ⟨rfl, rfl⟩

/-- **C6** — counterexample to the claim as stated: when both read attempts
of `_read_gmd` fail, the raised error wraps the cause of the FIRST attempt
(`"first"`), not the cause of the last attempt (`"last"`) as the claim
asserts. -/
theorem C6_counterexample :
    readGmd (α := Unit) (fun _ => .error "first") (fun _ => .error "last") []
        = .error (wrapGmdError "first") ∧
    wrapGmdError "first" ≠ wrapGmdError "last" :=
  ⟨rfl, by decide⟩

/-- **C6 (amended)** — `_read_gmd` first attempts strict-UTF-8 decode +
shorthand→standard transcode + plist parse, then falls back to parsing the
raw bytes; it succeeds whenever either attempt succeeds, and when both fail
it raises an error wrapping the cause of the FIRST failed attempt. -/
theorem C6_read_gmd_fallback {α : Type}
    (decodeU : Bytes → Except String (List Char))
    (loads : Bytes → Except String α) (data : Bytes) :
    (∀ text v, decodeU data = .ok text →
       loads (utf8Encode (convertGdToStandard text)) = .ok v →
       readGmd decodeU loads data = .ok v) ∧
    (∀ text e₁ v, decodeU data = .ok text →
       loads (utf8Encode (convertGdToStandard text)) = .error e₁ →
       loads data = .ok v → readGmd decodeU loads data = .ok v) ∧
    (∀ e₁ v, decodeU data = .error e₁ → loads data = .ok v →
       readGmd decodeU loads data = .ok v) ∧
    (∀ text e₁ e₂, decodeU data = .ok text →
       loads (utf8Encode (convertGdToStandard text)) = .error e₁ →
       loads data = .error e₂ →
       readGmd decodeU loads data = .error (wrapGmdError e₁)) ∧
    (∀ e₁ e₂, decodeU data = .error e₁ → loads data = .error e₂ →
       readGmd decodeU loads data = .error (wrapGmdError e₁)) := by
  refine ⟨?a, ?b, ?c, ?d, ?e⟩
  all_goals
    intros
    unfold readGmd
    simp_all only []

/-- Witness for C6 (amended), exercising the both-attempts-fail conjunct at
concrete parsers. -/
theorem C6_read_gmd_fallback_witness :
    readGmd (α := Unit) (fun _ => .error "e1") (fun _ => .error "e2") [7]
      = .error (wrapGmdError "e1") :=
  (C6_read_gmd_fallback (fun _ => .error "e1") (fun _ => .error "e2") [7]).2.2.2.2
    "e1" "e2" rfl rfl

/-- **C7** — `_read_lvl` tries `zlib` decompression first, falls back to
`gzip` on failure, then parses; a failure of both decompressors, or of the
parse, makes the read fail; and the write path `_save_lvl` is exactly
`zlib.compress` of the plist dump — it never invokes gzip. -/
theorem C7_read_lvl_fallback {α : Type}
    (zlibD gzipD : Bytes → Except String Bytes)
    (loads : Bytes → Except String α) (data : Bytes) :
    (∀ d, zlibD data = .ok d → readLvl zlibD gzipD loads data = loads d) ∧
    (∀ e d, zlibD data = .error e → gzipD data = .ok d →
       readLvl zlibD gzipD loads data = loads d) ∧
    (∀ e e₂, zlibD data = .error e → gzipD data = .error e₂ →
       readLvl zlibD gzipD loads data = .error e₂) ∧
    (∀ d e, zlibD data = .ok d → loads d = .error e →
       readLvl zlibD gzipD loads data = .error e) ∧
    (∀ (zlibC : Bytes → Bytes) (dumps : α → Bytes) (doc : α),
       saveLvl zlibC dumps doc = zlibC (dumps doc)) := by
  refine ⟨?a, ?b, ?c, ?d, fun _ _ _ => rfl⟩
  all_goals
    intros
    unfold readLvl
    simp_all only []

/-- Witness for C7, exercising the zlib-fails-gzip-succeeds conjunct at
concrete decompressors. -/
theorem C7_read_lvl_fallback_witness :
    readLvl (α := Nat) (fun _ => .error "zerr") (fun _ => .ok [1])
        (fun _ => .ok 42) []
      = .ok 42 :=
  (C7_read_lvl_fallback (fun _ => .error "zerr") (fun _ => .ok [1])
      (fun _ => .ok 42) []).2.1 "zerr" [1] rfl rfl

end GDTools
